/-
Verification of the layered settings-gathering engine (package `settings`,
files settings.go / errors.go, current revision).

The Go code is shallowly embedded: reflection-driven field writes become
updates of a path-indexed value map, process state (argv, environment,
file system, external decoders) becomes an explicit `Env` record, and Go
`error` values become an inductive mirroring the `SettingsError`
constructors of errors.go plus the propagated `os.ErrNotExist`.
Functions that can panic in Go (string indexing / slicing out of range)
return `Option`, with `none` marking the panic.
-/
import Mathlib

namespace Settings

/-- `reflect.Kind` restricted to the kinds the engine inspects.  Kinds the
code lumps into `default` branches (chan, func, interface, complex, ...)
are collapsed into `otherK`. -/
inductive GoKind where
  | boolK | intK | int8K | int16K | int32K | int64K
  | uintK | uint8K | uint16K | uint32K | uint64K
  | float32K | float64K | stringK
  | sliceK | structK | mapK | ptrK | otherK
  deriving DecidableEq, Repr

/-- `reflect.Type` for the shapes the engine meets.  `time` stands for the
named struct type `time.Time` (its `Kind()` is `structK`, and only an
identity comparison with `timeType` distinguishes it).  `other` covers
remaining kinds (chan, func, interface, complex, ...). -/
inductive GoType where
  | bool | int | int8 | int16 | int32 | int64
  | uint | uint8 | uint16 | uint32 | uint64
  | float32 | float64 | string
  | time
  | slice (elem : GoType)
  | structT (fields : List (String × GoType))
  | mapT (elem : GoType)
  | ptr (elem : GoType)
  | other
  deriving Repr

/-- `Type.Kind()`. -/
def GoType.kind : GoType → GoKind
  | .bool => .boolK
  | .int => .intK
  | .int8 => .int8K
  | .int16 => .int16K
  | .int32 => .int32K
  | .int64 => .int64K
  | .uint => .uintK
  | .uint8 => .uint8K
  | .uint16 => .uint16K
  | .uint32 => .uint32K
  | .uint64 => .uint64K
  | .float32 => .float32K
  | .float64 => .float64K
  | .string => .stringK
  | .time => .structK
  | .slice _ => .sliceK
  | .structT _ => .structK
  | .mapT _ => .mapK
  | .ptr _ => .ptrK
  | .other => .otherK

/-- `Type.Bits()` on a 64-bit platform (`int`/`uint` are 64 bits wide,
matching `reflect` on amd64/arm64). -/
def GoType.bits : GoType → Nat
  | .int => 64
  | .int8 => 8
  | .int16 => 16
  | .int32 => 32
  | .int64 => 64
  | .uint => 64
  | .uint8 => 8
  | .uint16 => 16
  | .uint32 => 32
  | .uint64 => 64
  | .float32 => 32
  | .float64 => 64
  | _ => 0

/-- `Type.Elem()` for the container types; on non-containers the engine
never calls it, so any total extension is adequate. -/
def GoType.elem : GoType → GoType
  | .slice e => e
  | .mapT e => e
  | .ptr e => e
  | t => t

/-- Identity comparison with the package-level `timeType`
(`reflect.TypeOf(time.Now())`). -/
def GoType.isTime : GoType → Bool
  | .time => true
  | _ => false

/-- Opaque payload of a parsed Go float; float arithmetic never happens in
the engine, values are only boxed and written. -/
structure GoFloat where
  bits64 : Nat
  deriving DecidableEq, Repr

/-- Opaque payload of a parsed `time.Time`. -/
structure GoTime where
  unixNano : Int
  deriving DecidableEq, Repr

/-- A dynamic Go value (the `interface{}` / `reflect.Value` payloads the
engine moves around).  Integer payloads are unbounded `Int`/`Nat`; the
parsers below enforce the width constraints exactly where the Go parsers
do. -/
inductive GoValue where
  | bool (b : Bool)
  | int (v : Int) | int8 (v : Int) | int16 (v : Int) | int32 (v : Int) | int64 (v : Int)
  | uint (v : Nat) | uint8 (v : Nat) | uint16 (v : Nat) | uint32 (v : Nat) | uint64 (v : Nat)
  | float32 (f : GoFloat) | float64 (f : GoFloat)
  | string (s : String)
  | time (t : GoTime)
  | slice (elems : List GoValue)
  | structV
  | mapV
  | other

/-- `reflect.ValueOf(v).Kind()`. -/
def GoValue.kind : GoValue → GoKind
  | .bool _ => .boolK
  | .int _ => .intK
  | .int8 _ => .int8K
  | .int16 _ => .int16K
  | .int32 _ => .int32K
  | .int64 _ => .int64K
  | .uint _ => .uintK
  | .uint8 _ => .uint8K
  | .uint16 _ => .uint16K
  | .uint32 _ => .uint32K
  | .uint64 _ => .uint64K
  | .float32 _ => .float32K
  | .float64 _ => .float64K
  | .string _ => .stringK
  | .time _ => .structK
  | .slice _ => .sliceK
  | .structV => .structK
  | .mapV => .mapK
  | .other => .otherK

/-- The `error` values the engine produces: one constructor per
`SettingsError` builder in errors.go, plus `notExistError` for the
underlying os not-found error that `readBaseSettings` / `readOverrideFile`
return unwrapped. -/
inductive SettingsErr where
  | fieldDoesNotExist (overrideType fieldName : String)
  | fieldTypeMismatch (fieldName : String) (expected got : GoKind)
  | fieldSetError (fieldName : String) (t : GoKind) (cause : Option String)
  | fileParseError (path desc : String)
  | fileReadError (path desc : String)
  | fileTypeError (path ext : String)
  | outCannotBeNil
  | typeDiscoveryError (t : GoKind)
  | notExistError (path : String)
  deriving DecidableEq, Repr

/-- Result of `os.Stat`: success, `os.ErrNotExist`, or another error with
its message. -/
inductive StatRes where
  | ok
  | notExist
  | otherError (msg : String)
  deriving DecidableEq, Repr

/-- The caller's `out` record as the engine observes it through
reflection: its dynamic type, and per dotted path the reflected field type
(`findOutFieldValue(p).Type()`), the `CanSet` answer, and the stored
value.  Field writes update `vals` at one path. -/
structure Target where
  type : GoType
  typeAt : String → GoType
  settable : String → Bool
  vals : String → GoValue

/-- `findOutFieldValue` + `reflect.Value.Set`: write `v` at path `p`. -/
def Target.setVal (t : Target) (p : String) (v : GoValue) : Target :=
  { t with vals := fun q => if q = p then v else t.vals q }

/-- Ambient process state and the external collaborators (argv, env vars,
file system, the yaml/json decoders, `strconv.ParseFloat`,
`time.Parse`, `fmt.Sprintf` and `path.Join`), injected explicitly. The
decoders return either an error message or the mutation they apply to the
target's values (they write over the whole record, bypassing the path
index). -/
structure Env where
  args : List String
  getenv : String → String
  stat : String → StatRes
  readFile : String → Except String String
  yamlDecode : String → Except String ((String → GoValue) → (String → GoValue))
  jsonDecode : String → Except String ((String → GoValue) → (String → GoValue))
  parseFloat : String → Nat → Except String GoFloat
  parseTime : String → Except String GoTime
  sprintf1 : String → String → String
  pathJoin : String → String → String

/-- options.go `ReadOptions` (maps are embedded as association lists; Go
map iteration order is unspecified, the list fixes one). -/
structure ReadOptions where
  argsFileOverride : List String := []
  argsMap : List (String × String) := []
  basePath : String := ""
  defaultsMap : List (String × GoValue) := []
  envOverride : List String := []
  envSearchPaths : List String := []
  envSearchPattern : String := ""
  varsMap : List (String × String) := []

/-! ### Models of the standard-library string parsers the engine calls -/

/-- `lower(c)` from strconv: fold ASCII letters to lower case via `c | 0x20`. -/
def lowerByte (c : Char) : Char := Char.ofNat (c.toNat ||| 0x20)

/-- Digit value of a character as in strconv's per-character switch
(`0-9`, then `a-z` case-insensitively). -/
def digitVal (c : Char) : Option Nat :=
  if c ≥ Char.ofNat 48 ∧ c ≤ Char.ofNat 57 then some (c.toNat - 48)
  else if lowerByte c ≥ Char.ofNat 97 ∧ lowerByte c ≤ Char.ofNat 122 then
    some ((lowerByte c).toNat - 97 + 10)
  else none

/-- strconv's `underscoreOK` digit-scan loop.  `saw` is the previous
character class: the digit class is recorded as the zero digit, an
underscore as an underscore, anything else as an exclamation mark. -/
def underscoreOKLoop (hex : Bool) : List Char → Char → Bool
  | [], saw => saw ≠ '_'
  | c :: rest, saw =>
    if (c ≥ Char.ofNat 48 ∧ c ≤ Char.ofNat 57) ∨
        (hex ∧ lowerByte c ≥ Char.ofNat 97 ∧ lowerByte c ≤ Char.ofNat 102) then
      underscoreOKLoop hex rest (Char.ofNat 48)
    else if c = '_' then
      if saw ≠ Char.ofNat 48 then false else underscoreOKLoop hex rest '_'
    else if saw = '_' then false
    else underscoreOKLoop hex rest (Char.ofNat 33)

/-- strconv's `underscoreOK`: underscores may only sit between digits or
between a base prefix and a digit. -/
def underscoreOK (s : List Char) : Bool :=
  let s1 := match s with
    | c :: rest => if c = '-' ∨ c = '+' then rest else s
    | [] => s
  match s1 with
  | c0 :: c1 :: rest =>
    if c0 = Char.ofNat 48 ∧
        (lowerByte c1 = 'b' ∨ lowerByte c1 = 'o' ∨ lowerByte c1 = 'x') then
      underscoreOKLoop (lowerByte c1 = 'x') rest (Char.ofNat 48)
    else underscoreOKLoop false s1 (Char.ofNat 94)
  | _ => underscoreOKLoop false s1 (Char.ofNat 94)

/-- The digit-accumulation loop of `strconv.ParseUint` for calls with
base 0 (underscores are skipped in the loop and validated afterwards).
A digit that pushes the value past `maxVal` reports a range error at that
digit, exactly where Go's cutoff/overflow checks fire (Go pre-checks
`n >= cutoff` before the multiply and `n1 > maxVal` after the add; both
conditions are equivalent to the accumulated value exceeding `maxVal`). -/
def parseUintDigits (base maxVal : Nat) : List Char → Nat → Except String Nat
  | [], n => .ok n
  | c :: rest, n =>
    if c = '_' then parseUintDigits base maxVal rest n
    else match digitVal c with
      | none => .error "invalid syntax"
      | some d =>
        if d ≥ base then .error "invalid syntax"
        else
          let n1 := n * base + d
          if n1 > maxVal then .error "value out of range"
          else parseUintDigits base maxVal rest n1

/-- `strconv.ParseUint(s, 0, bitSize)`: no sign allowed; base chosen by
prefix (`0b`/`0o`/`0x` with at least one further character, else a
leading zero means octal, else decimal); result constrained to
`bitSize` bits. -/
def goParseUint (s : String) (bitSize : Nat) : Except String Nat :=
  if s = "" then .error "invalid syntax"
  else
    let s0 := s.data
    let pr : Nat × List Char :=
      match s0 with
      | c0 :: c1 :: c2 :: rest =>
        if c0 = Char.ofNat 48 then
          if lowerByte c1 = 'b' then (2, c2 :: rest)
          else if lowerByte c1 = 'o' then (8, c2 :: rest)
          else if lowerByte c1 = 'x' then (16, c2 :: rest)
          else (8, c1 :: c2 :: rest)
        else (10, s0)
      | c0 :: rest =>
        if c0 = Char.ofNat 48 then (8, rest) else (10, s0)
      | [] => (10, s0)
    match parseUintDigits pr.1 (2 ^ bitSize - 1) pr.2 0 with
    | .error e => .error e
    | .ok n =>
      if s0.contains '_' ∧ ¬ underscoreOK s0 then .error "invalid syntax"
      else .ok n

/-- `strconv.ParseInt(s, 0, bitSize)`: optional sign, then the unsigned
parse; range constrained to the signed `bitSize`-bit interval (a range
error from the unsigned parse stays a range error, since the clamped
unsigned maximum already exceeds the signed cutoff). -/
def goParseInt (s : String) (bitSize : Nat) : Except String Int :=
  if s = "" then .error "invalid syntax"
  else
    let pr : Bool × List Char :=
      match s.data with
      | c :: cs => if c = '+' then (false, cs) else if c = '-' then (true, cs) else (false, s.data)
      | [] => (false, [])
    match goParseUint (String.mk pr.2) bitSize with
    | .error e => .error e
    | .ok un =>
      let cutoff := 2 ^ (bitSize - 1)
      if ¬ pr.1 ∧ un ≥ cutoff then .error "value out of range"
      else if pr.1 ∧ un > cutoff then .error "value out of range"
      else .ok (if pr.1 then -(un : Int) else (un : Int))

/-- `strconv.ParseBool`. -/
def goParseBool (s : String) : Except String Bool :=
  if s = "1" ∨ s = "t" ∨ s = "T" ∨ s = "true" ∨ s = "TRUE" ∨ s = "True" then .ok true
  else if s = "0" ∨ s = "f" ∨ s = "F" ∨ s = "false" ∨ s = "FALSE" ∨ s = "False" then .ok false
  else .error "invalid syntax"

/-- The whitespace class of Go's regexp `\s`: tab, newline, form feed,
carriage return, space. -/
def isGoSpace (c : Char) : Bool :=
  c = Char.ofNat 9 ∨ c = Char.ofNat 10 ∨ c = Char.ofNat 12 ∨ c = Char.ofNat 13 ∨ c = ' '

/-- Splitting around every match of the package-level regexp
`commaRE = \,\s?`: each comma ends a piece and greedily consumes at most
one following whitespace character. -/
def splitCommaAux : List Char → List Char → List (List Char)
  | [], acc => [acc.reverse]
  | c :: rest, acc =>
    if c = ',' then
      match rest with
      | d :: rest2 =>
        if isGoSpace d then acc.reverse :: splitCommaAux rest2 []
        else acc.reverse :: splitCommaAux (d :: rest2) []
      | [] => acc.reverse :: [[]]
    else splitCommaAux rest (c :: acc)

/-- `commaRE.Split(s, -1)`. -/
def splitComma (s : String) : List String := (splitCommaAux s.data []).map String.mk

/-- `filepath.Ext`: scan backwards to the last dot of the final
slash-separated element; no dot means the empty extension. -/
def filepathExtAux : List Char → List Char → String
  | [], _ => ""
  | c :: rest, acc =>
    if c = '.' then String.mk ('.' :: acc)
    else if c = '/' then ""
    else filepathExtAux rest (c :: acc)

/-- `filepath.Ext path`. -/
def filepathExt (p : String) : String := filepathExtAux p.data.reverse []

/-! ### cleanArgValue -/

/-- One iteration of the `cleanArgValue` loop over `charCheck`, at loop
index `i` with check byte `b` (Go indexes bytes; the embedding indexes
characters, which agree on the ASCII check bytes).  `none` marks a Go
runtime panic: the iteration first evaluates `v[0]`, which panics when
`v` is empty, and the quote-stripping slice `v[1 : l-1]` panics when
`l = 1`. -/
def cleanCheckChar (b : Char) (i : Nat) (cs : List Char) : Option (List Char) :=
  match cs with
  | [] => none
  | c :: rest =>
    if c = b ∧ i = 0 then some rest
    else
      let last := List.getLastD rest c
      if c = last ∧ c = b then
        match rest with
        | [] => none
        | _ => some rest.dropLast
      else some cs

/-- `cleanArgValue`: empty input is returned as-is; otherwise one pass per
check byte (`=` at index 0, the single quote at index 1, the double quote
at index 2).  `none` marks a panic in the corresponding iteration. -/
def cleanArgValue (v : String) : Option String :=
  if v.length = 0 then some v
  else do
    let v1 ← cleanCheckChar (Char.ofNat 61) 0 v.data
    let v2 ← cleanCheckChar (Char.ofNat 39) 1 v1
    let v3 ← cleanCheckChar (Char.ofNat 34) 2 v2
    some (String.mk v3)

/-! ### Type discovery (determineFieldTypes / iterateFields) -/

/-- The pointer-stripping loop `for ct.Kind() == reflect.Ptr`. -/
def stripPtr : GoType → GoType
  | .ptr e => stripPtr e
  | t => t

/-- The map-stripping loop `for ct.Kind() == reflect.Map`. -/
def stripMap : GoType → GoType
  | .mapT e => stripMap e
  | t => t

mutual

/-- `iterateFields`: non-struct-kind fields become leaves keyed by the
dotted path; struct-kind fields are descended into.  `time.Time` has
struct kind, so the walk descends into its three unexported fields
(`wall uint64`, `ext int64`, `loc *Location`). -/
def iterateFields (parentPrefix fieldName : String) (ft : GoType) : List (String × GoType) :=
  let name := if parentPrefix = "" then fieldName else parentPrefix ++ "." ++ fieldName
  match ft with
  | .structT fs => iterateFieldsList name fs
  | .time =>
    [(name ++ ".wall", .uint64), (name ++ ".ext", .int64), (name ++ ".loc", .ptr (.structT []))]
  | _ => [(name, ft)]

/-- The `NumField`/`FieldByIndex` loop over a struct's fields. -/
def iterateFieldsList (parentPrefix : String) : List (String × GoType) → List (String × GoType)
  | [] => []
  | (n, t) :: rest => iterateFields parentPrefix n t ++ iterateFieldsList parentPrefix rest

end

/-- `determineFieldTypes`: nil target fails with `OutCannotBeNil`; strip
pointers, then maps; a remaining non-struct kind fails with
`TypeDiscoveryError`, else the field walk builds the path index. -/
def determineFieldTypes : Option GoType → Except SettingsErr (List (String × GoType))
  | none => .error .outCannotBeNil
  | some ty =>
    let ct := stripMap (stripPtr ty)
    match ct with
    | .structT fs => .ok (iterateFieldsList "" fs)
    | .time => .ok [("wall", .uint64), ("ext", .int64), ("loc", .ptr (.structT []))]
    | _ => .error (.typeDiscoveryError ct.kind)

/-- Lookup in the `fieldTypeMap`. -/
def lookupField : List (String × GoType) → String → Option GoType
  | [], _ => none
  | (n, t) :: rest, p => if n = p then some t else lookupField rest p

/-! ### setFieldValue -/

/-- Wrap a standard-library parse result the way every branch of
`setFieldValue` does: a parse failure becomes
`SettingsFieldSetError(fieldPath, t.Kind(), err)`. -/
def liftParse {α : Type} (fieldPath : String) (tKind : GoKind)
    (r : Except String α) (f : α → GoValue) : Except SettingsErr GoValue :=
  match r with
  | .error e => .error (.fieldSetError fieldPath tKind (some e))
  | .ok v => .ok (f v)

/-- One iteration of the slice element loop in `setFieldValue`: the switch
on `ov.Type().Elem().Kind()`.  Machine-width `uint` elements use
`strconv.ParseUint` here (unlike the scalar `uint` case below).  The
default arm (struct, map, time.Time elements, ...) is the
"unsupported field type" error. -/
def coerceSliceElem (env : Env) (fieldPath : String) (tKind : GoKind) (elemT : GoType)
    (sv : String) : Except SettingsErr GoValue :=
  match elemT.kind with
  | .boolK => liftParse fieldPath tKind (goParseBool sv) GoValue.bool
  | .intK => liftParse fieldPath tKind (goParseInt sv elemT.bits) GoValue.int
  | .int8K => liftParse fieldPath tKind (goParseInt sv elemT.bits) GoValue.int8
  | .int16K => liftParse fieldPath tKind (goParseInt sv elemT.bits) GoValue.int16
  | .int32K => liftParse fieldPath tKind (goParseInt sv elemT.bits) GoValue.int32
  | .int64K => liftParse fieldPath tKind (goParseInt sv elemT.bits) GoValue.int64
  | .uintK => liftParse fieldPath tKind (goParseUint sv elemT.bits) GoValue.uint
  | .uint8K => liftParse fieldPath tKind (goParseUint sv elemT.bits) GoValue.uint8
  | .uint16K => liftParse fieldPath tKind (goParseUint sv elemT.bits) GoValue.uint16
  | .uint32K => liftParse fieldPath tKind (goParseUint sv elemT.bits) GoValue.uint32
  | .uint64K => liftParse fieldPath tKind (goParseUint sv elemT.bits) GoValue.uint64
  | .float32K => liftParse fieldPath tKind (env.parseFloat sv elemT.bits) GoValue.float32
  | .float64K => liftParse fieldPath tKind (env.parseFloat sv elemT.bits) GoValue.float64
  | .stringK => .ok (.string sv)
  | _ => .error (.fieldSetError fieldPath tKind (some "unsupported field type"))

/-- The `for i, sv := range sVals` loop: coerce the pieces left to right,
stopping at the first failure; successes fill the made slice in order. -/
def coerceSliceElems (env : Env) (fieldPath : String) (tKind : GoKind) (elemT : GoType) :
    List String → Except SettingsErr (List GoValue)
  | [] => .ok []
  | sv :: rest =>
    match coerceSliceElem env fieldPath tKind elemT sv with
    | .error e => .error e
    | .ok v =>
      match coerceSliceElems env fieldPath tKind elemT rest with
      | .error e => .error e
      | .ok vs => .ok (v :: vs)

/-- The value-computing switch of `setFieldValue` (`switch t.Kind()`).
The slice case reads the element type from the target
(`ov.Type().Elem()`); the scalar machine-width `uint` case parses with
`strconv.ParseInt` and then converts with `uint(pv)`, which on a 64-bit
platform wraps modulo `2^64`; the default case recognizes `time.Time` by
type identity and otherwise reports "unsupported field type". -/
def setFieldValueVal (env : Env) (t : Target) (fieldPath : String) (ty : GoType)
    (sVal : String) : Except SettingsErr GoValue :=
  match ty.kind with
  | .sliceK =>
    let sVals := splitComma sVal
    let elemT := (t.typeAt fieldPath).elem
    match coerceSliceElems env fieldPath ty.kind elemT sVals with
    | .error e => .error e
    | .ok vs => .ok (.slice vs)
  | .boolK => liftParse fieldPath ty.kind (goParseBool sVal) GoValue.bool
  | .intK => liftParse fieldPath ty.kind (goParseInt sVal ty.bits) GoValue.int
  | .int8K | .int16K | .int32K | .int64K =>
    liftParse fieldPath ty.kind (goParseInt sVal ty.bits)
      (fun v => match ty.bits with
        | 8 => .int8 v
        | 16 => .int16 v
        | 32 => .int32 v
        | _ => .int64 v)
  | .uintK =>
    liftParse fieldPath ty.kind (goParseInt sVal ty.bits)
      (fun v => .uint ((v % (2 ^ 64 : Int)).toNat))
  | .uint8K | .uint16K | .uint32K | .uint64K =>
    liftParse fieldPath ty.kind (goParseUint sVal ty.bits)
      (fun v => match ty.bits with
        | 8 => .uint8 v
        | 16 => .uint16 v
        | 32 => .uint32 v
        | _ => .uint64 v)
  | .float32K | .float64K =>
    liftParse fieldPath ty.kind (env.parseFloat sVal ty.bits)
      (fun f => match ty.bits with
        | 32 => .float32 f
        | _ => .float64 f)
  | .stringK => .ok (.string sVal)
  | _ =>
    if ty.isTime then liftParse fieldPath ty.kind (env.parseTime sVal) GoValue.time
    else .error (.fieldSetError fieldPath ty.kind (some "unsupported field type"))

/-- The guard `reflect.Zero(t) == val || val == nil` before the write.
The left comparison boxes the `reflect.Value` returned by `reflect.Zero`
into an interface and compares it with the interface `val`, whose dynamic
type is the concrete field type, never `reflect.Value`; mixed interface
equality with differing dynamic types is false.  And `val` is never nil
here, since every branch of the preceding switch assigned it or returned
early.  The guard is therefore identically false: no write is ever
skipped by it. -/
def zeroValueSkip (_ : GoType) (_ : GoValue) : Bool := false

/-- `setFieldValue`: unknown path fails with
`FieldDoesNotExist(override, path)`; otherwise the coerced value is
written when the location is settable, else
`FieldSetError(path, kind)` without a cause. -/
def setFieldValue (env : Env) (ftm : List (String × GoType)) (t : Target)
    (fieldPath sVal override : String) : Target × Option SettingsErr :=
  match lookupField ftm fieldPath with
  | some ty =>
    match setFieldValueVal env t fieldPath ty sVal with
    | .error e => (t, some e)
    | .ok val =>
      if zeroValueSkip ty val then (t, none)
      else if t.settable fieldPath then (t.setVal fieldPath val, none)
      else (t, some (.fieldSetError fieldPath ty.kind none))
  | none => (t, some (.fieldDoesNotExist override fieldPath))

/-! ### Keyed override appliers -/

/-- The validation loop of `applyDefaultsMap`: every entry is checked
(path known, kind match, settable) and staged; the first failure aborts
with nothing staged applied. -/
def stageDefaults (ftm : List (String × GoType)) (t : Target) :
    List (String × GoValue) → Except SettingsErr (List (String × GoValue))
  | [] => .ok []
  | (fieldName, defVal) :: rest =>
    match lookupField ftm fieldName with
    | some ty =>
      if ty.kind ≠ defVal.kind then
        .error (.fieldTypeMismatch fieldName ty.kind defVal.kind)
      else if ¬ t.settable fieldName then
        .error (.fieldSetError fieldName ty.kind none)
      else
        match stageDefaults ftm t rest with
        | .error e => .error e
        | .ok a => .ok ((fieldName, defVal) :: a)
    | none => .error (.fieldDoesNotExist "DefaultsMap" fieldName)

/-- The commit loop of `applyDefaultsMap`: write every staged pair. -/
def commitDefaults : List (String × GoValue) → Target → Target
  | [], t => t
  | (p, v) :: rest, t => commitDefaults rest (t.setVal p v)

/-- `applyDefaultsMap`: empty map is a no-op; otherwise validate every
entry, then commit all staged writes. -/
def applyDefaultsMap (ftm : List (String × GoType)) (d : List (String × GoValue))
    (t : Target) : Target × Option SettingsErr :=
  if d.isEmpty then (t, none)
  else
    match stageDefaults ftm t d with
    | .error e => (t, some e)
    | .ok a => (commitDefaults a t, none)

/-- `applyVars`: look each variable up in the environment, skip empty
values, otherwise set the field, stopping at the first error. -/
def applyVars (env : Env) (ftm : List (String × GoType)) :
    List (String × String) → Target → Target × Option SettingsErr
  | [], t => (t, none)
  | (evar, fieldPath) :: rest, t =>
    let v := env.getenv evar
    if v = "" then applyVars env ftm rest t
    else
      match setFieldValue env ftm t fieldPath v "Vars" with
      | (t1, none) => applyVars env ftm rest t1
      | (t1, some e) => (t1, some e)

/-- The one-token form check
`len(oa) > al && oa[0:al] == arg && oa[al] == '='` in `applyArgs` and
`searchForArgOverrides`.  Go indexes bytes; the embedding indexes
characters, which agree on the ASCII switch names the matching is used
with. -/
def eqFormMatch (arg oa : String) : Bool :=
  if arg.data.length < oa.data.length ∧
      oa.data.take arg.data.length = arg.data ∧
      oa.data.getD arg.data.length (Char.ofNat 0) = Char.ofNat 61
  then true else false

/-- `oa[al:]`: the matched token's tail from the `=` on. -/
def argValueSuffix (arg oa : String) : String := String.mk (oa.data.drop arg.data.length)

/-- The inner `for i, oa := range os.Args` scan shared by `applyArgs` and
`searchForArgOverrides`: at each token try the one-token `--switch=value`
form, then the two-token `--switch value` form (which needs a following
token, `i < totalArgs-1`); the first match breaks the scan. -/
def scanArg (arg : String) : List String → Option String
  | [] => none
  | oa :: rest =>
    if eqFormMatch arg oa then some (argValueSuffix arg oa)
    else if oa = arg then
      match rest with
      | w :: _ => some w
      | [] => none
    else scanArg arg rest

/-- `applyArgs`: scan argv once per configured switch; a matched raw value
is cleaned and written; a switch with no match (including a trailing
switch with no following value) is skipped silently.  `none` marks a
panic escaping from `cleanArgValue`. -/
def applyArgs (env : Env) (ftm : List (String × GoType)) :
    List (String × String) → Target → Option (Target × Option SettingsErr)
  | [], t => some (t, none)
  | (arg, field) :: rest, t =>
    match scanArg arg env.args with
    | none => applyArgs env ftm rest t
    | some raw =>
      match cleanArgValue raw with
      | none => none
      | some v =>
        match setFieldValue env ftm t field v "Args" with
        | (t1, none) => applyArgs env ftm rest t1
        | (t1, some e) => some (t1, some e)

/-! ### File loading -/

/-- `determineFileType`: `.yml`/`.yaml` mean yaml, `.json` means json, any
other extension is `FileTypeError(path, ext)`. -/
def determineFileType (path : String) : Except SettingsErr String :=
  let ext := filepathExt path
  if ext = ".yml" ∨ ext = ".yaml" then .ok "yaml"
  else if ext = ".json" then .ok "json"
  else .error (.fileTypeError path ext)

/-- `unmarshalFile`: determine the format, read the bytes
(`FileReadError` on failure), and decode over the whole target
(`FileParseError` on failure). -/
def unmarshalFile (env : Env) (path : String) (t : Target) : Target × Option SettingsErr :=
  match determineFileType path with
  | .error e => (t, some e)
  | .ok fty =>
    match env.readFile path with
    | .error msg => (t, some (.fileReadError path msg))
    | .ok contents =>
      if fty = "yaml" then
        match env.yamlDecode contents with
        | .error msg => (t, some (.fileParseError path msg))
        | .ok f => ({ t with vals := f t.vals }, none)
      else if fty = "json" then
        match env.jsonDecode contents with
        | .error msg => (t, some (.fileParseError path msg))
        | .ok f => ({ t with vals := f t.vals }, none)
      else (t, none)

/-- `readBaseSettings`: an empty base path is a no-op success; a stat
not-found error is returned as-is (`notExistError`), any other stat error
is wrapped as `FileReadError`; then the file is unmarshalled onto the
target. -/
def readBaseSettings (env : Env) (path : String) (t : Target) : Target × Option SettingsErr :=
  if path = "" then (t, none)
  else
    match env.stat path with
    | .notExist => (t, some (.notExistError path))
    | .otherError msg => (t, some (.fileReadError path msg))
    | .ok => unmarshalFile env path t

/-- `readOverrideFile`: like the base load but with no empty-path
shortcut — the file is expected to exist. -/
def readOverrideFile (env : Env) (path : String) (t : Target) : Target × Option SettingsErr :=
  match env.stat path with
  | .notExist => (t, some (.notExistError path))
  | .otherError msg => (t, some (.fileReadError path msg))
  | .ok => unmarshalFile env path t

/-- `searchForArgOverrides`: for each trigger switch, scan argv with the
shared matching; a non-empty cleaned path is loaded as an override file,
errors abort.  `none` marks a panic escaping from `cleanArgValue`. -/
def searchForArgOverrides (env : Env) :
    List String → Target → Option (Target × Option SettingsErr)
  | [], t => some (t, none)
  | a :: rest, t =>
    match scanArg a env.args with
    | none => searchForArgOverrides env rest t
    | some raw =>
      match cleanArgValue raw with
      | none => none
      | some p =>
        if p ≠ "" then
          match readOverrideFile env p t with
          | (t1, none) => searchForArgOverrides env rest t1
          | (t1, some e) => some (t1, some e)
        else searchForArgOverrides env rest t

/-- The package-level candidate extension list `settingsExt`. -/
def settingsExt : List String := [".yml", ".yaml", ".json", ""]

/-- The closure `extensionSearch` in `searchForEnvOverrides`: try each
extension in order; any stat error silently skips the candidate; the
first stat-ok candidate is loaded and reported found (a load error is
returned). -/
def extensionSearch (env : Env) (sp : String) :
    List String → Target → Target × Bool × Option SettingsErr
  | [], t => (t, false, none)
  | ext :: rest, t =>
    let spf := sp ++ ext
    match env.stat spf with
    | .ok =>
      match readOverrideFile env spf t with
      | (t1, some e) => (t1, false, some e)
      | (t1, none) => (t1, true, none)
    | _ => extensionSearch env sp rest t

/-- The `for _, prefix := range searchPaths` loop of
`searchForEnvOverrides`: with a file pattern the candidate stem is
`path.Join(prefix, fmt.Sprintf(pattern, envName))`, otherwise
`path.Join(prefix, envName)`; a found candidate breaks this loop (and
only this loop). -/
def searchDirsLoop (env : Env) (filePattern envName : String) :
    List String → Target → Target × Option SettingsErr
  | [], t => (t, none)
  | pfx :: rest, t =>
    if filePattern ≠ "" then
      let sp := env.pathJoin pfx (env.sprintf1 filePattern envName)
      match extensionSearch env sp settingsExt t with
      | (t1, _, some e) => (t1, some e)
      | (t1, true, none) => (t1, none)
      | (t1, false, none) => searchDirsLoop env filePattern envName rest t1
    else
      let sp := env.pathJoin pfx envName
      match extensionSearch env sp settingsExt t with
      | (t1, _, some e) => (t1, some e)
      | (t1, true, none) => (t1, none)
      | (t1, false, none) => searchDirsLoop env filePattern envName rest t1

/-- The outer `for _, v := range vars` loop of `searchForEnvOverrides`:
variables with empty values are skipped; after a variable's directory
search (found or not) the loop continues with the next variable. -/
def searchVarsLoop (env : Env) (searchPaths : List String) (filePattern : String) :
    List String → Target → Target × Option SettingsErr
  | [], t => (t, none)
  | v :: vs, t =>
    let envName := env.getenv v
    if envName ≠ "" then
      match searchDirsLoop env filePattern envName searchPaths t with
      | (t1, some e) => (t1, some e)
      | (t1, none) => searchVarsLoop env searchPaths filePattern vs t1
    else searchVarsLoop env searchPaths filePattern vs t

/-- `searchForEnvOverrides`: no trigger variables or no search paths is a
no-op; otherwise run the variable loop. -/
def searchForEnvOverrides (env : Env) (vars searchPaths : List String)
    (filePattern : String) (t : Target) : Target × Option SettingsErr :=
  if vars.isEmpty then (t, none)
  else if searchPaths.isEmpty then (t, none)
  else searchVarsLoop env searchPaths filePattern vars t

/-! ### The orchestrator -/

/-- `Gather`: build the path index, then run the six layers in their
fixed order — base file, defaults map, argv file overrides, environment
file override search, argv switches, environment variables — returning
at the first error.  The outer `Option` marks a panic escaping from
`cleanArgValue`; the result pairs the target as mutated so far with the
first error, if any. -/
def Gather (env : Env) (opts : ReadOptions) (out : Option Target) :
    Option (Option Target × Option SettingsErr) :=
  match out with
  | none =>
    match determineFieldTypes none with
    | .error e => some (none, some e)
    | .ok _ => some (none, none)
  | some t =>
    match determineFieldTypes (some t.type) with
    | .error e => some (some t, some e)
    | .ok ftm =>
      match readBaseSettings env opts.basePath t with
      | (t1, some e) => some (some t1, some e)
      | (t1, none) =>
        match applyDefaultsMap ftm opts.defaultsMap t1 with
        | (t2, some e) => some (some t2, some e)
        | (t2, none) =>
          match searchForArgOverrides env opts.argsFileOverride t2 with
          | none => none
          | some (t3, some e) => some (some t3, some e)
          | some (t3, none) =>
            match searchForEnvOverrides env opts.envOverride opts.envSearchPaths
                opts.envSearchPattern t3 with
            | (t4, some e) => some (some t4, some e)
            | (t4, none) =>
              match applyArgs env ftm opts.argsMap t4 with
              | none => none
              | some (t5, some e) => some (some t5, some e)
              | some (t5, none) =>
                match applyVars env ftm opts.varsMap t5 with
                | (t6, some e) => some (some t6, some e)
                | (t6, none) => some (some t6, none)

/-! ### Spec-side predicates used in theorem statements -/

/-- A defaults-map entry that passes all three validation checks of
`applyDefaultsMap` (path known, kind match, settable location). -/
def defaultEntryOK (ftm : List (String × GoType)) (t : Target) (p : String)
    (v : GoValue) : Prop :=
  ∃ ty, lookupField ftm p = some ty ∧ ty.kind = v.kind ∧ t.settable p = true

/-- The candidate override paths one trigger-variable value produces, in
the order the code tries them: configured directories outermost, then the
four extensions of `settingsExt`. -/
def envCandidates (env : Env) (filePattern envName : String) (dirs : List String) :
    List String :=
  dirs.flatMap (fun pfx =>
    settingsExt.map (fun ext =>
      (env.pathJoin pfx (if filePattern ≠ "" then env.sprintf1 filePattern envName
        else envName)) ++ ext))

/-- The first candidate the file system reports present. -/
def firstExisting (env : Env) (ps : List String) : Option String :=
  ps.find? (fun p => env.stat p = .ok)

/-- The target states of a full successful run, indexed 0 (initial state)
through 6 (state after the sixth layer). -/
def layerStates (t t1 t2 t3 t4 t5 t6 : Target) : Nat → Target
  | 0 => t
  | 1 => t1
  | 2 => t2
  | 3 => t3
  | 4 => t4
  | 5 => t5
  | _ => t6

/-! ### Concrete fixtures for closed evaluations -/

/-- An inert environment: empty argv and environment, empty file system,
failing decoders and parsers. -/
def demoEnv : Env where
  args := []
  getenv := fun _ => ""
  stat := fun _ => .notExist
  readFile := fun _ => .error "no such file"
  yamlDecode := fun _ => .error "no decoder"
  jsonDecode := fun _ => .error "no decoder"
  parseFloat := fun _ _ => .error "invalid syntax"
  parseTime := fun _ => .error "cannot parse"
  sprintf1 := fun p _ => p
  pathJoin := fun a b => a ++ "/" ++ b

/-- A small path index: a string leaf, an int leaf, a machine-width uint
leaf, and a sequence-of-int32 leaf. -/
def demoFtm : List (String × GoType) :=
  [("Name", .string), ("Count", .int), ("Port", .uint), ("Nums", .slice .int32)]

/-- A target populated consistently with `demoFtm`, every leaf settable. -/
def demoTarget : Target where
  type := .structT demoFtm
  typeAt := fun p =>
    if p = "Name" then .string
    else if p = "Count" then .int
    else if p = "Port" then .uint
    else if p = "Nums" then .slice .int32
    else .other
  settable := fun _ => true
  vals := fun p =>
    if p = "Name" then .string "prior"
    else if p = "Count" then .int 7
    else if p = "Port" then .uint 0
    else if p = "Nums" then .slice []
    else .other

/-- A target whose dynamic type is a plain map of strings. -/
def mapTarget : Target where
  type := .mapT .string
  typeAt := fun _ => .other
  settable := fun _ => false
  vals := fun _ => .other

/-- Target for the full-run fixture: a single string leaf `Name`. -/
def c1Target : Target where
  type := .structT [("Name", .string)]
  typeAt := fun _ => .string
  settable := fun _ => true
  vals := fun _ => .string ""

/-- Environment for the full-run fixture: argv carries `--name cli`. -/
def c1Env : Env :=
  { demoEnv with args := ["--name", "cli"] }

/-- Options for the full-run fixture: a default for `Name` (overridden by
the later argv layer) and the switch table `--name ↦ Name`. -/
def c1Opts : ReadOptions where
  defaultsMap := [("Name", .string "dflt")]
  argsMap := [("--name", "Name")]

/-- State after the defaults layer of the full-run fixture. -/
def c1T2 : Target := c1Target.setVal "Name" (.string "dflt")

/-- State after the argv-switch layer of the full-run fixture. -/
def c1T5 : Target := c1T2.setVal "Name" (.string "cli")

/-- Target for the environment-override fixtures: a single int leaf `X`. -/
def c5Target : Target where
  type := .structT [("X", .int)]
  typeAt := fun _ => .int
  settable := fun _ => true
  vals := fun _ => .int 0

/-- Environment for the environment-override counterexample: two trigger
variables `V1`/`V2` with values `a`/`b`, and one directory `d` holding
both `d/a.yml` (decodes to `X = 1`) and `d/b.yml` (decodes to `X = 2`). -/
def c5Env : Env where
  args := []
  getenv := fun v => if v = "V1" then "a" else if v = "V2" then "b" else ""
  stat := fun p => if p = "d/a.yml" ∨ p = "d/b.yml" then .ok else .notExist
  readFile := fun p =>
    if p = "d/a.yml" then .ok "f1"
    else if p = "d/b.yml" then .ok "f2"
    else .error "no such file"
  yamlDecode := fun c =>
    if c = "f1" then .ok (fun vals => fun p => if p = "X" then .int 1 else vals p)
    else if c = "f2" then .ok (fun vals => fun p => if p = "X" then .int 2 else vals p)
    else .error "bad yaml"
  jsonDecode := fun _ => .error "bad json"
  parseFloat := fun _ _ => .error "invalid syntax"
  parseTime := fun _ => .error "cannot parse"
  sprintf1 := fun p _ => p
  pathJoin := fun a b => a ++ "/" ++ b

/-- Environment for the candidate-order witness: the file system misses
every candidate under `d1` and holds only `d2/a.yaml` (so under `d2` the
`.yml` candidate is also a stat miss). -/
def c5OrderEnv : Env :=
  { c5Env with
    stat := fun p => if p = "d2/a.yaml" then .ok else .notExist
    readFile := fun p => if p = "d2/a.yaml" then .ok "f1" else .error "no such file" }

/-- Environment for the base-file error taxonomy: one unreadable path, one
missing path, one present path with an unsupported extension, and one
present yaml/json path each whose decode fails. -/
def c6Env : Env where
  args := []
  getenv := fun _ => ""
  stat := fun p =>
    if p = "locked.yml" then .otherError "permission denied"
    else if p = "conf.toml" ∨ p = "broken.yml" ∨ p = "broken.json" then .ok
    else .notExist
  readFile := fun p =>
    if p = "broken.yml" then .ok "yaml-bytes"
    else if p = "broken.json" then .ok "json-bytes"
    else .error "no such file"
  yamlDecode := fun _ => .error "bad yaml"
  jsonDecode := fun _ => .error "bad json"
  parseFloat := fun _ _ => .error "invalid syntax"
  parseTime := fun _ => .error "cannot parse"
  sprintf1 := fun p _ => p
  pathJoin := fun a b => a ++ "/" ++ b

/-! ## Theorems -/

/-- **C3.** The claimed zero-skip rule does not hold in the code: the
guard `reflect.Zero(t) == val || val == nil` is identically false, so
coercing the empty string against a string leaf overwrites the existing
value with the empty string instead of skipping the write, and against an
int leaf it fails with a parse error instead of skipping — in neither
case is the existing value left unchanged by a silent skip. -/
theorem empty_string_coercion_overwrites_or_errors :
    (setFieldValue demoEnv demoFtm demoTarget "Name" "" "Args").2 = none
    ∧ (setFieldValue demoEnv demoFtm demoTarget "Name" "" "Args").1.vals "Name"
        = GoValue.string ""
    ∧ demoTarget.vals "Name" = GoValue.string "prior"
    ∧ setFieldValue demoEnv demoFtm demoTarget "Count" "" "Vars"
        = (demoTarget, some (.fieldSetError "Count" .intK (some "invalid syntax"))) :=
  ⟨rfl, rfl, rfl, rfl⟩

/-- **C8.** For a machine-width `uint` leaf the code parses with the
signed `strconv.ParseInt` and converts with `uint(pv)`: the string `"-1"`
does not fail with a `FieldSetError` as claimed, it succeeds and writes
the wrapped value `2^64 - 1`. -/
theorem machine_uint_negative_parses_signed :
    (setFieldValue demoEnv demoFtm demoTarget "Port" "-1" "Vars").2 = none
    ∧ (setFieldValue demoEnv demoFtm demoTarget "Port" "-1" "Vars").1.vals "Port"
        = GoValue.uint 18446744073709551615 :=
  ⟨rfl, rfl⟩

/-- **C9.** Argument-value cleaning is not total: on the one-character
string `"="` the first loop iteration strips the `=`, and the next
iteration indexes `v[0]` on the now-empty string, a runtime panic
(`none`) — it does not return the empty string.  On ordinary inputs the
cleaning behaves as described (leading `=` stripped, one matching quote
pair stripped, inner punctuation untouched). -/
theorem cleanArgValue_panics_on_lone_equals :
    cleanArgValue "=" = none
    ∧ cleanArgValue "=value" = some "value"
    ∧ cleanArgValue "\"value\"" = some "value"
    ∧ cleanArgValue (String.mk [Char.ofNat 39, 'v', Char.ofNat 39]) = some "v"
    ∧ cleanArgValue "value = value" = some "value = value" := by
  refine ⟨by decide, by decide, by decide, by decide, by decide⟩

/-- **C5, counterexample.** After the first trigger variable `V1`
successfully loads `d/a.yml` (which sets `X = 1`), the search does not
stop: the second trigger variable `V2` is consulted and loads `d/b.yml`,
leaving `X = 2`.  Running with `V1` alone leaves `X = 1`, so the claimed
"entire search stops" behaviour is violated at this input. -/
theorem env_override_search_continues_after_first_load :
    (searchForEnvOverrides c5Env ["V1", "V2"] ["d"] "" c5Target).2 = none
    ∧ (searchForEnvOverrides c5Env ["V1", "V2"] ["d"] "" c5Target).1.vals "X"
        = GoValue.int 2
    ∧ (searchForEnvOverrides c5Env ["V1"] ["d"] "" c5Target).1.vals "X"
        = GoValue.int 1 :=
  ⟨rfl, rfl, rfl⟩

/-- Helper: a target type whose stripped kind is not struct makes
`determineFieldTypes` fail with `TypeDiscoveryError` of that kind. -/
lemma determineFieldTypes_nonstruct (ty : GoType)
    (h : (stripMap (stripPtr ty)).kind ≠ .structK) :
    determineFieldTypes (some ty)
      = .error (.typeDiscoveryError (stripMap (stripPtr ty)).kind) := by
  cases hct : stripMap (stripPtr ty) <;>
    simp_all [determineFieldTypes, GoType.kind]

/-- **C7.** A nil target fails with `OutCannotBeNil`; a target whose kind
after stripping pointer and map indirection is not a struct makes
`Gather` fail with `TypeDiscoveryError` of that kind, with the target
untouched, and the outcome is independent of the ambient environment
(no file, argv or env access happens). -/
theorem gather_nil_and_non_struct_target (env env2 : Env) (opts : ReadOptions) :
    Gather env opts none = some (none, some .outCannotBeNil)
    ∧ ∀ (t : Target), (stripMap (stripPtr t.type)).kind ≠ .structK →
        Gather env opts (some t)
          = some (some t, some (.typeDiscoveryError (stripMap (stripPtr t.type)).kind))
        ∧ Gather env opts (some t) = Gather env2 opts (some t) := by
  refine ⟨rfl, fun t h => ?_⟩
  have hd := determineFieldTypes_nonstruct t.type h
  exact ⟨by simp [Gather, hd], by simp [Gather, hd]⟩

/-- Witness for C7: with a plain map-of-strings target, `Gather` fails
with `TypeDiscoveryError(string)` under any two environments alike. -/
theorem gather_nil_and_non_struct_target_witness :
    Gather demoEnv {} (some mapTarget)
      = some (some mapTarget, some (.typeDiscoveryError .stringK))
    ∧ Gather demoEnv {} (some mapTarget) = Gather c5Env {} (some mapTarget) := by
  have h := (gather_nil_and_non_struct_target demoEnv c5Env {}).2 mapTarget (by decide)
  exact ⟨h.1, h.2⟩

/-- Helper: during defaults validation, entries that pass all checks are
traversed, and an entry whose path is unknown aborts with
`FieldDoesNotExist("DefaultsMap", path)`. -/
lemma stageDefaults_unknown_path (ftm : List (String × GoType)) (t : Target)
    (P : String) (w : GoValue) (hP : lookupField ftm P = none) :
    ∀ d1 d2, (∀ q u, (q, u) ∈ d1 → defaultEntryOK ftm t q u) →
      stageDefaults ftm t (d1 ++ (P, w) :: d2)
        = .error (.fieldDoesNotExist "DefaultsMap" P) := by
  intro d1
  induction d1 with
  | nil =>
    intro d2 _
    simp [stageDefaults, hP]
  | cons hd rest ih =>
    intro d2 hOK
    obtain ⟨q, u⟩ := hd
    obtain ⟨ty, hty, hkind, hsettable⟩ := hOK q u (by simp)
    simp [stageDefaults, hty, hkind, hsettable,
      ih d2 (fun q2 u2 hm => hOK q2 u2 (by simp [hm]))]

/-- **C2.** An entry keyed by a path absent from the path index fails
with `FieldDoesNotExist` labelled with the source table and leaves the
target untouched: directly so for the argv/env appliers (via
`setFieldValue`), and for the defaults applier, where moreover any
validation failure of any entry means no defaults write happens at all
(validate-then-commit). -/
theorem unknown_path_and_defaults_all_or_nothing (env : Env)
    (ftm : List (String × GoType)) (t : Target) (P sVal label : String)
    (hP : lookupField ftm P = none) :
    setFieldValue env ftm t P sVal label = (t, some (.fieldDoesNotExist label P))
    ∧ (∀ d1 d2 w, (∀ q u, (q, u) ∈ d1 → defaultEntryOK ftm t q u) →
        applyDefaultsMap ftm (d1 ++ (P, w) :: d2) t
          = (t, some (.fieldDoesNotExist "DefaultsMap" P)))
    ∧ (∀ d e, (applyDefaultsMap ftm d t).2 = some e →
        (applyDefaultsMap ftm d t).1 = t) := by
  refine ⟨by simp [setFieldValue, hP], ?_, ?_⟩
  · intro d1 d2 w hOK
    have hs := stageDefaults_unknown_path ftm t P w hP d1 d2 hOK
    simp [applyDefaultsMap, hs]
  · intro d e h
    by_cases hd : d.isEmpty
    · simp [applyDefaultsMap, hd] at h
    · cases hs : stageDefaults ftm t d <;>
        simp [applyDefaultsMap, hd, hs] at h ⊢

/-- Witness for C2: the unknown path `Missing` fails via the env applier
and via a defaults map whose first entry is valid; the target comes back
exactly unchanged. -/
theorem unknown_path_and_defaults_witness :
    setFieldValue demoEnv demoFtm demoTarget "Missing" "x" "Vars"
      = (demoTarget, some (.fieldDoesNotExist "Vars" "Missing"))
    ∧ applyDefaultsMap demoFtm [("Name", .string "n"), ("Missing", .int 3)] demoTarget
      = (demoTarget, some (.fieldDoesNotExist "DefaultsMap" "Missing")) := by
  have h := unknown_path_and_defaults_all_or_nothing demoEnv demoFtm demoTarget
    "Missing" "x" "Vars" rfl
  refine ⟨h.1, ?_⟩
  have h2 := h.2.1 [("Name", .string "n")] [] (.int 3) ?_
  · exact h2
  · intro q u hm
    simp only [List.mem_singleton, Prod.mk.injEq] at hm
    obtain ⟨hq, hu⟩ := hm
    subst hq
    subst hu
    exact ⟨.string, rfl, rfl, rfl⟩

/-- **C6.** Base-file loading: an absent (empty) base path is a no-op
success; a stat failure other than not-found is wrapped as
`FileReadError`; a not-found stat result is surfaced as the bare
not-found error, a different error from `FileReadError`; an unsupported
extension yields `FileTypeError`; and a decode failure of the read bytes
yields `FileParseError` (for both formats). -/
theorem base_file_load_error_taxonomy (env : Env) (t : Target) :
    readBaseSettings env "" t = (t, none)
    ∧ (∀ path m, path ≠ "" → env.stat path = .otherError m →
        readBaseSettings env path t = (t, some (.fileReadError path m)))
    ∧ (∀ path, path ≠ "" → env.stat path = .notExist →
        readBaseSettings env path t = (t, some (.notExistError path))
        ∧ ∀ p d, SettingsErr.notExistError path ≠ .fileReadError p d)
    ∧ (∀ path, path ≠ "" → env.stat path = .ok →
        filepathExt path ≠ ".yml" → filepathExt path ≠ ".yaml" → filepathExt path ≠ ".json" →
        readBaseSettings env path t = (t, some (.fileTypeError path (filepathExt path))))
    ∧ (∀ path b m, path ≠ "" → env.stat path = .ok → determineFileType path = .ok "yaml" →
        env.readFile path = .ok b → env.yamlDecode b = .error m →
        readBaseSettings env path t = (t, some (.fileParseError path m)))
    ∧ (∀ path b m, path ≠ "" → env.stat path = .ok → determineFileType path = .ok "json" →
        env.readFile path = .ok b → env.jsonDecode b = .error m →
        readBaseSettings env path t = (t, some (.fileParseError path m))) := by
  refine ⟨by simp [readBaseSettings], ?_, ?_, ?_, ?_, ?_⟩
  · intro path m hp hs
    simp [readBaseSettings, hp, hs]
  · intro path hp hs
    exact ⟨by simp [readBaseSettings, hp, hs], by intro p d; simp⟩
  · intro path hp hs h1 h2 h3
    simp [readBaseSettings, hp, hs, unmarshalFile, determineFileType, h1, h2, h3]
  · intro path b m hp hs hdet hrd hdec
    simp [readBaseSettings, hp, hs, unmarshalFile, hdet, hrd, hdec]
  · intro path b m hp hs hdet hrd hdec
    have hne : "json" ≠ "yaml" := by decide
    simp [readBaseSettings, hp, hs, unmarshalFile, hdet, hrd, hdec, hne]

/-- Witness for C6: all five error shapes at concrete paths under the
fixture file system. -/
theorem base_file_load_error_taxonomy_witness :
    readBaseSettings c6Env "" demoTarget = (demoTarget, none)
    ∧ readBaseSettings c6Env "locked.yml" demoTarget
        = (demoTarget, some (.fileReadError "locked.yml" "permission denied"))
    ∧ readBaseSettings c6Env "absent.yml" demoTarget
        = (demoTarget, some (.notExistError "absent.yml"))
    ∧ readBaseSettings c6Env "conf.toml" demoTarget
        = (demoTarget, some (.fileTypeError "conf.toml" ".toml"))
    ∧ readBaseSettings c6Env "broken.yml" demoTarget
        = (demoTarget, some (.fileParseError "broken.yml" "bad yaml"))
    ∧ readBaseSettings c6Env "broken.json" demoTarget
        = (demoTarget, some (.fileParseError "broken.json" "bad json")) := by
  have h := base_file_load_error_taxonomy c6Env demoTarget
  refine ⟨h.1, ?_, ?_, ?_, ?_, ?_⟩
  · exact h.2.1 "locked.yml" "permission denied" (by decide) rfl
  · exact (h.2.2.1 "absent.yml" (by decide) rfl).1
  · exact h.2.2.2.1 "conf.toml" (by decide) rfl (by decide) (by decide) (by decide)
  · exact h.2.2.2.2.1 "broken.yml" "yaml-bytes" "bad yaml" (by decide) rfl rfl rfl rfl
  · exact h.2.2.2.2.2 "broken.json" "json-bytes" "bad json" (by decide) rfl rfl rfl rfl

/-- Helper: element coercion touches the environment only through
`parseFloat`. -/
lemma coerceSliceElem_env_congr (e1 e2 : Env) (hf : e1.parseFloat = e2.parseFloat)
    (fp : String) (tK : GoKind) (elemT : GoType) (sv : String) :
    coerceSliceElem e1 fp tK elemT sv = coerceSliceElem e2 fp tK elemT sv := by
  simp [coerceSliceElem, hf]

/-- Helper: sequence coercion touches the environment only through
`parseFloat`. -/
lemma coerceSliceElems_env_congr (e1 e2 : Env) (hf : e1.parseFloat = e2.parseFloat)
    (fp : String) (tK : GoKind) (elemT : GoType) :
    ∀ ps, coerceSliceElems e1 fp tK elemT ps = coerceSliceElems e2 fp tK elemT ps := by
  intro ps
  induction ps with
  | nil => rfl
  | cons p rest ih =>
    simp [coerceSliceElems, coerceSliceElem_env_congr e1 e2 hf, ih]

/-- Helper: the value coercion of `setFieldValue` touches the environment
only through `parseFloat` and `parseTime`. -/
lemma setFieldValueVal_env_congr (e1 e2 : Env) (hf : e1.parseFloat = e2.parseFloat)
    (ht : e1.parseTime = e2.parseTime) (t : Target) (fp : String) (ty : GoType)
    (sVal : String) :
    setFieldValueVal e1 t fp ty sVal = setFieldValueVal e2 t fp ty sVal := by
  simp [setFieldValueVal, hf, ht, coerceSliceElems_env_congr e1 e2 hf]

/-- Helper: `setFieldValue` never reads argv from the environment. -/
lemma setFieldValue_env_congr (e1 e2 : Env) (hf : e1.parseFloat = e2.parseFloat)
    (ht : e1.parseTime = e2.parseTime) (ftm : List (String × GoType)) (t : Target)
    (fp sVal override : String) :
    setFieldValue e1 ftm t fp sVal override = setFieldValue e2 ftm t fp sVal override := by
  simp [setFieldValue, setFieldValueVal_env_congr e1 e2 hf ht]

/-- Helper: a token never matches itself in the one-token form (it has no
room for the `=`). -/
lemma eqFormMatch_self_false (arg : String) : eqFormMatch arg arg = false := by
  simp [eqFormMatch]

/-- Helper: tokens that match neither form are skipped by the argv scan. -/
lemma scanArg_append_of_no_match (arg : String) :
    ∀ (l1 rest : List String), (∀ x ∈ l1, eqFormMatch arg x = false ∧ x ≠ arg) →
      scanArg arg (l1 ++ rest) = scanArg arg rest := by
  intro l1
  induction l1 with
  | nil => intro rest _; rfl
  | cons x l1t ih =>
    intro rest h1
    obtain ⟨hx1, hx2⟩ := h1 x (by simp)
    simp only [List.cons_append, scanArg, hx1, Bool.false_eq_true, if_false, hx2]
    exact ih rest (fun y hy => h1 y (by simp [hy]))

/-- **C10.** The argv scan applies only the first matching token.  With a
prefix `l1` of non-matching tokens, a one-token `--switch=value` match
yields exactly its own suffix and a direct two-token match yields exactly
the following token, in both cases independent of everything after the
match — swapping the tail of the argument list (e.g. for one holding
further occurrences of the switch) leaves the applier's result on any
target unchanged. -/
theorem applyArgs_first_match_wins (env : Env) (ftm : List (String × GoType))
    (arg fld : String) (l1 l2 l2' : List String)
    (h1 : ∀ x ∈ l1, eqFormMatch arg x = false ∧ x ≠ arg) :
    (∀ tok, eqFormMatch arg tok = true →
      scanArg arg (l1 ++ tok :: l2) = some (argValueSuffix arg tok)
      ∧ ∀ t, applyArgs { env with args := l1 ++ tok :: l2 } ftm [(arg, fld)] t
          = applyArgs { env with args := l1 ++ tok :: l2' } ftm [(arg, fld)] t)
    ∧ (∀ w, scanArg arg (l1 ++ arg :: w :: l2) = some w
      ∧ ∀ t, applyArgs { env with args := l1 ++ arg :: w :: l2 } ftm [(arg, fld)] t
          = applyArgs { env with args := l1 ++ arg :: w :: l2' } ftm [(arg, fld)] t) := by
  constructor
  · intro tok htok
    have hscan : ∀ rest : List String, scanArg arg (l1 ++ tok :: rest)
        = some (argValueSuffix arg tok) := by
      intro rest
      rw [scanArg_append_of_no_match arg l1 (tok :: rest) h1]
      simp [scanArg, htok]
    refine ⟨hscan l2, fun t => ?_⟩
    simp only [applyArgs, hscan l2, hscan l2']
    cases cleanArgValue (argValueSuffix arg tok) with
    | none => rfl
    | some v =>
      have hc := setFieldValue_env_congr { env with args := l1 ++ tok :: l2 }
        { env with args := l1 ++ tok :: l2' } rfl rfl ftm t fld v "Args"
      simp only [hc]
  · intro w
    have hscan : ∀ rest : List String, scanArg arg (l1 ++ arg :: w :: rest) = some w := by
      intro rest
      rw [scanArg_append_of_no_match arg l1 (arg :: w :: rest) h1]
      simp [scanArg, eqFormMatch_self_false]
    refine ⟨hscan l2, fun t => ?_⟩
    simp only [applyArgs, hscan l2, hscan l2']
    cases cleanArgValue w with
    | none => rfl
    | some v =>
      have hc := setFieldValue_env_congr { env with args := l1 ++ arg :: w :: l2 }
        { env with args := l1 ++ arg :: w :: l2' } rfl rfl ftm t fld v "Args"
      simp only [hc]

/-- Witness for C10: with argv `[prog, --port=1, --port=2]` only the
first occurrence is applied — the result equals the run whose tail holds
no second occurrence at all — and likewise for the two-token form. -/
theorem applyArgs_first_match_wins_witness :
    scanArg "--port" ["prog", "--port=1", "--port=2"] = some "=1"
    ∧ applyArgs { demoEnv with args := ["prog", "--port=1", "--port=2"] } demoFtm
        [("--port", "Port")] demoTarget
      = applyArgs { demoEnv with args := ["prog", "--port=1"] } demoFtm
        [("--port", "Port")] demoTarget
    ∧ scanArg "--port" ["prog", "--port", "7", "--port", "8"] = some "7"
    ∧ applyArgs { demoEnv with args := ["prog", "--port", "7", "--port", "8"] } demoFtm
        [("--port", "Port")] demoTarget
      = applyArgs { demoEnv with args := ["prog", "--port", "7"] } demoFtm
        [("--port", "Port")] demoTarget := by
  have h := applyArgs_first_match_wins demoEnv demoFtm "--port" "Port"
    ["prog"] ["--port=2"] []
    (by intro x hx; simp only [List.mem_singleton] at hx; subst hx; exact ⟨by decide, by decide⟩)
  have h2 := applyArgs_first_match_wins demoEnv demoFtm "--port" "Port"
    ["prog"] ["--port", "8"] []
    (by intro x hx; simp only [List.mem_singleton] at hx; subst hx; exact ⟨by decide, by decide⟩)
  refine ⟨?_, ?_, ?_, ?_⟩
  · exact ((h.1 "--port=1" (by decide)).1).trans (by decide)
  · exact (h.1 "--port=1" (by decide)).2 demoTarget
  · exact (h2.2 "7").1
  · exact (h2.2 "7").2 demoTarget

/-- Helper: a failed `liftParse` always carries a `FieldSetError` with the
wrapped parse failure. -/
lemma liftParse_error_shape {α : Type} (fp : String) (tK : GoKind)
    (r : Except String α) (f : α → GoValue) (e : SettingsErr)
    (h : liftParse fp tK r f = .error e) : ∃ msg, e = .fieldSetError fp tK (some msg) := by
  cases r with
  | error m => simp [liftParse] at h; exact ⟨m, h.symm⟩
  | ok v => simp [liftParse] at h

/-- Helper: a failed element coercion always carries a `FieldSetError`
labelled with the field path and the sequence kind. -/
lemma coerceSliceElem_error_shape (env : Env) (fp : String) (tK : GoKind)
    (elemT : GoType) (sv : String) (e : SettingsErr)
    (h : coerceSliceElem env fp tK elemT sv = .error e) :
    ∃ msg, e = .fieldSetError fp tK (some msg) := by
  unfold coerceSliceElem at h
  cases hk : elemT.kind <;> simp only [hk] at h <;>
    first
      | exact liftParse_error_shape _ _ _ _ _ h
      | (injection h with h2; exact ⟨"unsupported field type", h2.symm⟩)
      | simp at h

/-- Helper: a successful sequence coercion has exactly one output element
per piece, each the coercion of the piece at the same position. -/
lemma coerceSliceElems_ok_spec (env : Env) (fieldPath : String) (tK : GoKind)
    (elemT : GoType) :
    ∀ ps vs, coerceSliceElems env fieldPath tK elemT ps = .ok vs →
      vs.length = ps.length
      ∧ ∀ i, i < ps.length →
          coerceSliceElem env fieldPath tK elemT (ps.getD i "")
            = .ok (vs.getD i .other) := by
  intro ps
  induction ps with
  | nil =>
    intro vs h
    simp only [coerceSliceElems, Except.ok.injEq] at h
    subst h
    exact ⟨rfl, by intro i hi; simp at hi⟩
  | cons p rest ih =>
    intro vs h
    simp only [coerceSliceElems] at h
    cases hc : coerceSliceElem env fieldPath tK elemT p <;> rw [hc] at h
    · simp at h
    case ok v =>
      cases hr : coerceSliceElems env fieldPath tK elemT rest <;> rw [hr] at h
      · simp at h
      case ok vs2 =>
        simp only [Except.ok.injEq] at h
        subst h
        obtain ⟨hlen, helem⟩ := ih vs2 hr
        refine ⟨by simp [hlen], ?_⟩
        intro i hi
        cases i with
        | zero => simpa using hc
        | succ j => simpa using helem j (by simpa using hi)

/-- Helper: the first failing piece decides the error of a sequence
coercion. -/
lemma coerceSliceElems_first_error (env : Env) (fieldPath : String) (tK : GoKind)
    (elemT : GoType) :
    ∀ ps1 bad ps2 e, (∀ p ∈ ps1, ∃ w, coerceSliceElem env fieldPath tK elemT p = .ok w) →
      coerceSliceElem env fieldPath tK elemT bad = .error e →
      coerceSliceElems env fieldPath tK elemT (ps1 ++ bad :: ps2) = .error e := by
  intro ps1
  induction ps1 with
  | nil =>
    intro bad ps2 e _ hbad
    simp [coerceSliceElems, hbad]
  | cons p rest ih =>
    intro bad ps2 e hOK hbad
    obtain ⟨w, hw⟩ := hOK p (by simp)
    simp [coerceSliceElems, hw, ih bad ps2 e (fun q hq => hOK q (by simp [hq])) hbad]

/-- Helper: one scan step over a non-comma character. -/
lemma splitCommaAux_cons_ne (a : Char) (rest acc : List Char) (ha : a ≠ ',') :
    splitCommaAux (a :: rest) acc = splitCommaAux rest (a :: acc) := by
  rw [splitCommaAux.eq_def]
  simp [ha]

/-- Helper: one scan step over a comma closes the current piece and
greedily eats at most one following whitespace character. -/
lemma splitCommaAux_comma (acc bs : List Char) :
    splitCommaAux (',' :: bs) acc
      = acc.reverse ::
          (match bs with
            | d :: rest2 =>
              if isGoSpace d then splitCommaAux rest2 [] else splitCommaAux (d :: rest2) []
            | [] => [[]]) := by
  rw [splitCommaAux.eq_def]
  cases bs with
  | nil => simp
  | cons d rest2 => by_cases hd : isGoSpace d = true <;> simp [hd]

/-- Helper: splitting a comma-free prefix off at a comma, with optional
consumption of one following whitespace character. -/
lemma splitCommaAux_append_comma (bs : List Char) :
    ∀ (as acc : List Char), (∀ c ∈ as, c ≠ ',') →
      splitCommaAux (as ++ ',' :: bs) acc
        = (acc.reverse ++ as) ::
            (match bs with
              | d :: rest2 =>
                if isGoSpace d then splitCommaAux rest2 [] else splitCommaAux (d :: rest2) []
              | [] => [[]]) := by
  intro as
  induction as with
  | nil =>
    intro acc _
    simpa using splitCommaAux_comma acc bs
  | cons a rest ih =>
    intro acc h
    have ha : a ≠ ',' := h a (by simp)
    rw [List.cons_append, splitCommaAux_cons_ne a _ acc ha,
      ih (a :: acc) (fun c hc => h c (by simp [hc]))]
    simp

/-- **C4.** Sequence coercion: the raw string is split on a comma
optionally followed by (one) whitespace character; each piece is coerced
as the element type independently; a successful coercion writes a
sequence preserving input order with exactly one element per piece, and
the first failing piece aborts the call with a `FieldSetError` wrapping
its parse failure and leaves the target unchanged. -/
theorem sequence_coercion_split_order_first_fail (env : Env)
    (ftm : List (String × GoType)) (t : Target) (P : String) (elemT : GoType) (s : String)
    (hty : lookupField ftm P = some (.slice elemT))
    (htyAt : t.typeAt P = .slice elemT)
    (hsettable : t.settable P = true) :
    (∀ a b : String, (∀ c ∈ a.data, c ≠ ',') →
        (∀ d ∈ b.data.take 1, isGoSpace d = false) →
        splitComma (a ++ "," ++ b) = a :: splitComma b)
    ∧ (∀ (a b : String) (c : Char), (∀ x ∈ a.data, x ≠ ',') → isGoSpace c = true →
        splitComma (a ++ String.mk [',', c] ++ b) = a :: splitComma b)
    ∧ (∀ vs, coerceSliceElems env P .sliceK elemT (splitComma s) = .ok vs →
        setFieldValue env ftm t P s "Args" = (t.setVal P (.slice vs), none)
        ∧ vs.length = (splitComma s).length
        ∧ ∀ i, i < (splitComma s).length →
            coerceSliceElem env P .sliceK elemT ((splitComma s).getD i "")
              = .ok (vs.getD i .other))
    ∧ (∀ ps1 bad ps2 e, splitComma s = ps1 ++ bad :: ps2 →
        (∀ p ∈ ps1, ∃ w, coerceSliceElem env P .sliceK elemT p = .ok w) →
        coerceSliceElem env P .sliceK elemT bad = .error e →
        setFieldValue env ftm t P s "Args" = (t, some e)
        ∧ ∃ msg, e = .fieldSetError P .sliceK (some msg)) := by
  refine ⟨?_, ?_, ?_, ?_⟩
  · intro a b ha hb
    have hdata : (a ++ "," ++ b).data = a.data ++ ',' :: b.data := by
      simp [String.data_append]
    rw [splitComma, hdata, splitCommaAux_append_comma b.data a.data [] ha]
    cases hbd : b.data with
    | nil =>
      have hb0 : b = "" := by
        cases b with | _ d => simp at hbd; simp [hbd]
      simp [hb0, splitComma, splitCommaAux]
    | cons d rest =>
      have hd : isGoSpace d = false := by
        have := hb (b.data.headD d) ?_
        · simpa [hbd] using this
        · simp [hbd]
      simp only [hd, if_false]
      simp [splitComma, hbd]
  · intro a b c ha hc
    have hdata : (a ++ String.mk [',', c] ++ b).data = a.data ++ ',' :: c :: b.data := by
      simp [String.data_append]
    rw [splitComma, hdata]
    rw [show (',' : Char) :: c :: b.data = ',' :: (c :: b.data) from rfl]
    rw [splitCommaAux_append_comma (c :: b.data) a.data [] ha]
    simp [hc, splitComma]
  · intro vs hok
    have hval : setFieldValueVal env t P (.slice elemT) s = .ok (.slice vs) := by
      simp [setFieldValueVal, GoType.kind, htyAt, GoType.elem, hok]
    obtain ⟨hlen, helem⟩ := coerceSliceElems_ok_spec env P .sliceK elemT (splitComma s) vs hok
    exact ⟨by simp [setFieldValue, hty, hval, zeroValueSkip, hsettable], hlen, helem⟩
  · intro ps1 bad ps2 e hsplit hOK hbad
    have herr := coerceSliceElems_first_error env P .sliceK elemT ps1 bad ps2 e hOK hbad
    have hval : setFieldValueVal env t P (.slice elemT) s = .error e := by
      simp [setFieldValueVal, GoType.kind, htyAt, GoType.elem, hsplit, herr]
    exact ⟨by simp [setFieldValue, hty, hval],
      coerceSliceElem_error_shape env P .sliceK elemT bad e hbad⟩

/-- Witness for C4: coercing `"1,2,3"` against the sequence-of-int32 leaf
`Nums` writes exactly `[1, 2, 3]` and nothing else. -/
theorem sequence_coercion_witness :
    setFieldValue demoEnv demoFtm demoTarget "Nums" "1,2,3" "Args"
      = (demoTarget.setVal "Nums" (.slice [.int32 1, .int32 2, .int32 3]), none)
    ∧ splitComma "1,2,3" = ["1", "2", "3"] := by
  have h := sequence_coercion_split_order_first_fail demoEnv demoFtm demoTarget
    "Nums" .int32 "1,2,3" rfl rfl rfl
  exact ⟨(h.2.2.1 [.int32 1, .int32 2, .int32 3] rfl).1, rfl⟩

/-- Helper: `find?` over an appended list tries the left part first. -/
lemma find?_append_first {α : Type} (p : α → Bool) :
    ∀ l1 l2 : List α, (l1 ++ l2).find? p
      = match l1.find? p with
        | some a => some a
        | none => l2.find? p := by
  intro l1
  induction l1 with
  | nil => intro l2; simp
  | cons a rest ih =>
    intro l2
    by_cases hp : p a
    · simp [List.find?_cons_of_pos, hp]
    · simp only [List.cons_append]
      rw [List.find?_cons_of_neg _ (by simpa using hp),
        List.find?_cons_of_neg _ (by simpa using hp), ih]

/-- Helper: the extension loop loads the first candidate whose stat
succeeds; every stat miss is skipped. -/
lemma extensionSearch_eq (env : Env) (sp : String) :
    ∀ (exts : List String) (t : Target),
      extensionSearch env sp exts t
        = match (exts.map (fun e => sp ++ e)).find? (fun p => env.stat p = .ok) with
          | none => (t, false, none)
          | some p =>
            match readOverrideFile env p t with
            | (t1, some e) => (t1, false, some e)
            | (t1, none) => (t1, true, none) := by
  intro exts
  induction exts with
  | nil => intro t; simp [extensionSearch]
  | cons ext rest ih =>
    intro t
    cases hst : env.stat (sp ++ ext) with
    | ok =>
      rw [show extensionSearch env sp (ext :: rest) t
          = match env.stat (sp ++ ext) with
            | .ok =>
              match readOverrideFile env (sp ++ ext) t with
              | (t1, some e) => (t1, false, some e)
              | (t1, none) => (t1, true, none)
            | _ => extensionSearch env sp rest t from rfl, hst]
      rw [List.map_cons, List.find?_cons_of_pos _ (by simp [hst])]
    | notExist =>
      rw [show extensionSearch env sp (ext :: rest) t
          = match env.stat (sp ++ ext) with
            | .ok =>
              match readOverrideFile env (sp ++ ext) t with
              | (t1, some e) => (t1, false, some e)
              | (t1, none) => (t1, true, none)
            | _ => extensionSearch env sp rest t from rfl, hst]
      rw [List.map_cons, List.find?_cons_of_neg _ (by simp [hst]), ih]
    | otherError m =>
      rw [show extensionSearch env sp (ext :: rest) t
          = match env.stat (sp ++ ext) with
            | .ok =>
              match readOverrideFile env (sp ++ ext) t with
              | (t1, some e) => (t1, false, some e)
              | (t1, none) => (t1, true, none)
            | _ => extensionSearch env sp rest t from rfl, hst]
      rw [List.map_cons, List.find?_cons_of_neg _ (by simp [hst]), ih]

/-- Helper: the directory loop for one trigger-variable value loads the
first existing candidate (directories outermost, extensions innermost)
and consults no further directory for that variable afterwards. -/
lemma searchDirsLoop_eq (env : Env) (filePattern envName : String) :
    ∀ (dirs : List String) (t : Target),
      searchDirsLoop env filePattern envName dirs t
        = match firstExisting env (envCandidates env filePattern envName dirs) with
          | none => (t, none)
          | some p => readOverrideFile env p t := by
  intro dirs
  induction dirs with
  | nil => intro t; simp [searchDirsLoop, envCandidates, firstExisting]
  | cons pfx rest ih =>
    intro t
    have hcand : envCandidates env filePattern envName (pfx :: rest)
        = (settingsExt.map (fun ext =>
            (env.pathJoin pfx (if filePattern ≠ "" then env.sprintf1 filePattern envName
              else envName)) ++ ext))
          ++ envCandidates env filePattern envName rest := by
      simp [envCandidates]
    set stem := env.pathJoin pfx (if filePattern ≠ "" then env.sprintf1 filePattern envName
      else envName) with hstem
    have hloop : searchDirsLoop env filePattern envName (pfx :: rest) t
        = match extensionSearch env stem settingsExt t with
          | (t1, _, some e) => (t1, some e)
          | (t1, true, none) => (t1, none)
          | (t1, false, none) => searchDirsLoop env filePattern envName rest t1 := by
      by_cases hfp : filePattern = ""
      · simp [searchDirsLoop, hfp, hstem]
      · simp [searchDirsLoop, hfp, hstem]
    rw [hloop, extensionSearch_eq env stem settingsExt t, firstExisting, hcand,
      find?_append_first]
    cases hfind : (settingsExt.map (fun e => stem ++ e)).find? (fun p => env.stat p = .ok) with
    | none => simpa [firstExisting] using ih t
    | some p =>
      cases hro : readOverrideFile env p t with
      | mk t1 e =>
        cases e <;> simp [hro]

/-- **C5, amended.** Per trigger variable the candidate files are tried
in the fixed order — directories outermost, and per directory the
extensions `.yml`, `.yaml`, `.json`, no extension — any stat failure
silently skips the candidate, and the first existing candidate is loaded,
ending that variable's search; the outer loop however continues with the
remaining trigger variables, which may load further override files. -/
theorem env_override_search_per_var_first_candidate (env : Env) (filePattern : String) :
    (∀ envName dirs t,
      searchDirsLoop env filePattern envName dirs t
        = match firstExisting env (envCandidates env filePattern envName dirs) with
          | none => (t, none)
          | some p => readOverrideFile env p t)
    ∧ (∀ v vs dirs t, env.getenv v ≠ "" →
        searchVarsLoop env dirs filePattern (v :: vs) t
          = match searchDirsLoop env filePattern (env.getenv v) dirs t with
            | (t1, some e) => (t1, some e)
            | (t1, none) => searchVarsLoop env dirs filePattern vs t1)
    ∧ (∀ v vs dirs t, env.getenv v = "" →
        searchVarsLoop env dirs filePattern (v :: vs) t
          = searchVarsLoop env dirs filePattern vs t)
    ∧ (∀ vars dirs t, vars ≠ [] → dirs ≠ [] →
        searchForEnvOverrides env vars dirs filePattern t
          = searchVarsLoop env dirs filePattern vars t) := by
  refine ⟨fun envName dirs t => searchDirsLoop_eq env filePattern envName dirs t,
    ?_, ?_, ?_⟩
  · intro v vs dirs t hv
    simp [searchVarsLoop, hv]
  · intro v vs dirs t hv
    simp [searchVarsLoop, hv]
  · intro vars dirs t hvars hdirs
    simp [searchForEnvOverrides, hvars, hdirs]

/-- Witness for C5 (amended): under the fixture, every candidate in `d1`
is a stat miss and is skipped, `d2/a.yml` is also missed, and the first
existing candidate `d2/a.yaml` is loaded; appending the variable loop,
`V1` drives exactly this search. -/
theorem env_override_search_order_witness :
    searchDirsLoop c5OrderEnv "" "a" ["d1", "d2"] c5Target
      = readOverrideFile c5OrderEnv "d2/a.yaml" c5Target
    ∧ (searchDirsLoop c5OrderEnv "" "a" ["d1", "d2"] c5Target).1.vals "X" = GoValue.int 1
    ∧ searchVarsLoop c5OrderEnv ["d1", "d2"] "" ["V1"] c5Target
      = searchVarsLoop c5OrderEnv ["d1", "d2"] ""
          [] (readOverrideFile c5OrderEnv "d2/a.yaml" c5Target).1 := by
  have h := env_override_search_per_var_first_candidate c5OrderEnv ""
  have h1 : searchDirsLoop c5OrderEnv "" "a" ["d1", "d2"] c5Target
      = readOverrideFile c5OrderEnv "d2/a.yaml" c5Target :=
    (h.1 "a" ["d1", "d2"] c5Target).trans (by rfl)
  refine ⟨h1, by rw [h1]; rfl, ?_⟩
  have h2 := h.2.1 "V1" [] ["d1", "d2"] c5Target (by decide)
  rw [h2, show c5OrderEnv.getenv "V1" = "a" from rfl, h1]
  rfl

/-- Helper: if every index above `k` keeps the previous index's value,
the last value equals the value at `k`. -/
lemma val_eq_last_of_preserved {α : Type} (f : Nat → α) :
    ∀ (n k : Nat), k ≤ n → (∀ i, k < i → i ≤ n → f i = f (i - 1)) → f n = f k := by
  intro n
  induction n with
  | zero =>
    intro k hk _
    interval_cases k
    rfl
  | succ m ih =>
    intro k hk hpres
    rcases Nat.lt_or_ge k (m + 1) with hlt | hge
    · have hstep : f (m + 1) = f m := by
        simpa using hpres (m + 1) (by omega) (by omega)
      rw [hstep]
      exact ih k (by omega) (fun i hi1 hi2 => hpres i hi1 (by omega))
    · have hk1 : k = m + 1 := by omega
      rw [hk1]

/-- **C1.** `Gather` runs its layers in the fixed order — path index,
base file, defaults map, argv file overrides, environment file override
search, argv switches, environment variables.  The first failing step's
error is returned with the state of that moment (a path-index failure
returns before any layer runs), and the remaining layers never run; on a fully successful run the result is the state after the
last layer, and for any path the final value equals the value that the
last layer to change it supplied (layers after it that leave the path
unchanged preserve it). -/
theorem gather_fixed_order_first_error_and_precedence (env : Env) (opts : ReadOptions)
    (t : Target) (ftm : List (String × GoType)) :
    (∀ e0, determineFieldTypes (some t.type) = .error e0 →
        Gather env opts (some t) = some (some t, some e0))
    ∧ (determineFieldTypes (some t.type) = .ok ftm →
      (∀ u e, readBaseSettings env opts.basePath t = (u, some e) →
        Gather env opts (some t) = some (some u, some e))
    ∧ (∀ t1 u e, readBaseSettings env opts.basePath t = (t1, none) →
        applyDefaultsMap ftm opts.defaultsMap t1 = (u, some e) →
        Gather env opts (some t) = some (some u, some e))
    ∧ (∀ t1 t2 u e, readBaseSettings env opts.basePath t = (t1, none) →
        applyDefaultsMap ftm opts.defaultsMap t1 = (t2, none) →
        searchForArgOverrides env opts.argsFileOverride t2 = some (u, some e) →
        Gather env opts (some t) = some (some u, some e))
    ∧ (∀ t1 t2 t3 u e, readBaseSettings env opts.basePath t = (t1, none) →
        applyDefaultsMap ftm opts.defaultsMap t1 = (t2, none) →
        searchForArgOverrides env opts.argsFileOverride t2 = some (t3, none) →
        searchForEnvOverrides env opts.envOverride opts.envSearchPaths
          opts.envSearchPattern t3 = (u, some e) →
        Gather env opts (some t) = some (some u, some e))
    ∧ (∀ t1 t2 t3 t4 u e, readBaseSettings env opts.basePath t = (t1, none) →
        applyDefaultsMap ftm opts.defaultsMap t1 = (t2, none) →
        searchForArgOverrides env opts.argsFileOverride t2 = some (t3, none) →
        searchForEnvOverrides env opts.envOverride opts.envSearchPaths
          opts.envSearchPattern t3 = (t4, none) →
        applyArgs env ftm opts.argsMap t4 = some (u, some e) →
        Gather env opts (some t) = some (some u, some e))
    ∧ (∀ t1 t2 t3 t4 t5 u e, readBaseSettings env opts.basePath t = (t1, none) →
        applyDefaultsMap ftm opts.defaultsMap t1 = (t2, none) →
        searchForArgOverrides env opts.argsFileOverride t2 = some (t3, none) →
        searchForEnvOverrides env opts.envOverride opts.envSearchPaths
          opts.envSearchPattern t3 = (t4, none) →
        applyArgs env ftm opts.argsMap t4 = some (t5, none) →
        applyVars env ftm opts.varsMap t5 = (u, some e) →
        Gather env opts (some t) = some (some u, some e))
    ∧ (∀ t1 t2 t3 t4 t5 t6, readBaseSettings env opts.basePath t = (t1, none) →
        applyDefaultsMap ftm opts.defaultsMap t1 = (t2, none) →
        searchForArgOverrides env opts.argsFileOverride t2 = some (t3, none) →
        searchForEnvOverrides env opts.envOverride opts.envSearchPaths
          opts.envSearchPattern t3 = (t4, none) →
        applyArgs env ftm opts.argsMap t4 = some (t5, none) →
        applyVars env ftm opts.varsMap t5 = (t6, none) →
        Gather env opts (some t) = some (some t6, none)
        ∧ ∀ (P : String) (v : GoValue) (j : Nat), j ≤ 6 →
            (layerStates t t1 t2 t3 t4 t5 t6 j).vals P = v →
            (∀ i, j < i → i ≤ 6 →
              (layerStates t t1 t2 t3 t4 t5 t6 i).vals P
                = (layerStates t t1 t2 t3 t4 t5 t6 (i - 1)).vals P) →
            t6.vals P = v)) := by
  refine ⟨?_, fun hft => ⟨?_, ?_, ?_, ?_, ?_, ?_, ?_⟩⟩
  · intro e0 h0
    simp [Gather, h0]
  · intro u e h1
    simp [Gather, hft, h1]
  · intro t1 u e h1 h2
    simp [Gather, hft, h1, h2]
  · intro t1 t2 u e h1 h2 h3
    simp [Gather, hft, h1, h2, h3]
  · intro t1 t2 t3 u e h1 h2 h3 h4
    simp [Gather, hft, h1, h2, h3, h4]
  · intro t1 t2 t3 t4 u e h1 h2 h3 h4 h5
    simp [Gather, hft, h1, h2, h3, h4, h5]
  · intro t1 t2 t3 t4 t5 u e h1 h2 h3 h4 h5 h6
    simp [Gather, hft, h1, h2, h3, h4, h5, h6]
  · intro t1 t2 t3 t4 t5 t6 h1 h2 h3 h4 h5 h6
    refine ⟨by simp [Gather, hft, h1, h2, h3, h4, h5, h6], ?_⟩
    intro P v j hj hset hpres
    have hlast := val_eq_last_of_preserved
      (fun i => (layerStates t t1 t2 t3 t4 t5 t6 i).vals P) 6 j hj hpres
    exact hlast.trans hset

/-- Witness for C1: a full successful run over a one-field struct where
the defaults layer writes `Name` and the later argv-switch layer
overrides it; the final value is the argv layer's, the last layer that
set the path. -/
theorem gather_precedence_witness :
    Gather c1Env c1Opts (some c1Target) = some (some c1T5, none)
    ∧ c1T5.vals "Name" = GoValue.string "cli" := by
  have h := ((gather_fixed_order_first_error_and_precedence c1Env c1Opts c1Target
      [("Name", .string)]).2 rfl).2.2.2.2.2.2 c1Target c1T2 c1T2 c1T2 c1T5 c1T5
      rfl rfl rfl rfl rfl rfl
  refine ⟨h.1, ?_⟩
  exact h.2 "Name" (.string "cli") 5 (by omega) rfl
    (fun i hi1 hi2 => by interval_cases i; rfl)

end Settings
